import Mathlib

/-!
Verification development for the WAB (Wallet Authentication Backend)
share-custody subsystem (`src/ShareService` in `server.ts`), its rate
limiter, and the 2-of-3 threshold key-recovery scheme described in
`how-it-works.md`.

Shallow embedding conventions:
- Buffers (byte strings) are `List Nat`, each entry a byte value.
- Database tables are Lean lists inside an explicit `DBState`; knex
  queries become list operations.
- `Date` timestamps are milliseconds since epoch, as `Int`.
- Node's AES-256-GCM (`createCipheriv` / `createDecipheriv`) is an
  external primitive, modelled as an ideal authenticated stream cipher:
  an invertible keystream XOR plus a deterministic tag over
  (key, nonce, ciphertext). The repository's code never looks inside
  the primitive, only at success / authentication failure.
- Fallible code returns `Except String`, carrying the thrown `Error`
  message.
-/

/-- Hex digit value of a character, `none` for a non-hex character
(mirrors Node `Buffer.from(_, "hex")` digit handling). -/
def hexDigitVal (c : Char) : Option Nat :=
  if '0' ≤ c ∧ c ≤ '9' then some (c.toNat - '0'.toNat)
  else if 'a' ≤ c ∧ c ≤ 'f' then some (c.toNat - 'a'.toNat + 10)
  else if 'A' ≤ c ∧ c ≤ 'F' then some (c.toNat - 'A'.toNat + 10)
  else none

/-- Decode a hex character list two digits at a time; like Node's
`Buffer.from(str, "hex")`, decoding stops at the first pair that is not
two hex digits (a trailing lone digit is dropped). -/
def hexDecodeAux : List Char → List Nat
  | c1 :: c2 :: rest =>
    match hexDigitVal c1, hexDigitVal c2 with
    | some hi, some lo => (16 * hi + lo) :: hexDecodeAux rest
    | _, _ => []
  | _ => []

/-- Decode a hex string to bytes, Node `Buffer.from(s, "hex")`. -/
def hexDecode (s : String) : List Nat :=
  hexDecodeAux s.data

/-- Keystream byte `i` of the ideal stream cipher for a key and nonce. -/
def keystreamByte (key nonce : List Nat) (i : Nat) : Nat :=
  (key.foldl (fun a b => a * 131 + b) 17 +
   nonce.foldl (fun a b => a * 131 + b) 19 + i) % 256

/-- XOR a byte list against the keystream starting at position `i`.
Applying it twice with the same key/nonce returns the input, which is
exactly the stream-cipher behaviour of AES-GCM's CTR core. -/
def xorStream (key nonce : List Nat) : Nat → List Nat → List Nat
  | _, [] => []
  | i, b :: rest => (b ^^^ keystreamByte key nonce i) :: xorStream key nonce (i + 1) rest

/-- Deterministic authentication tag of the ideal AEAD over
(key, nonce, ciphertext), standing in for the GCM tag. -/
def gcmTag (key nonce ct : List Nat) : Nat :=
  (key ++ nonce ++ ct).foldl (fun a b => (a * 131 + b + 1) % 4294967296) 23

/-- Result of `ShareService.encryptShare`: ciphertext, nonce and auth
tag. In the source the nonce and tag are hex-encoded strings; hex
encoding is a bijection on byte lists, so the model keeps bytes. -/
structure EncryptedShare where
  encrypted : List Nat
  nonce : List Nat
  tag : Nat
deriving DecidableEq

/-- Message of the `Error` thrown when `SHARE_ENCRYPTION_KEY` is unset. -/
def missingKeyMsg : String := "SHARE_ENCRYPTION_KEY environment variable not set"

/-- Message of the `Error` thrown when the key does not decode to 32 bytes. -/
def badKeyLengthMsg : String := "SHARE_ENCRYPTION_KEY must be 64 hex characters (32 bytes)"

/-- Message Node's OpenSSL binding raises when GCM tag verification fails. -/
def authFailureMsg : String := "Unsupported state or unable to authenticate data"

/-- ShareService.getEncryptionKey: validates that the configured key
exists and hex-decodes to exactly 32 bytes. -/
def getEncryptionKey (serverKey : String) : Except String (List Nat) :=
  if serverKey = "" then
    .error missingKeyMsg
  else
    let keyBuffer := hexDecode serverKey
    if keyBuffer.length ≠ 32 then
      .error badKeyLengthMsg
    else
      .ok keyBuffer

/-- ShareService.encryptShare: AES-256-GCM encryption of a share under
the configured server key. The 12-byte random nonce drawn by
`randomBytes(12)` is passed in explicitly as the randomness. -/
def encryptShare (serverKey : String) (nonce : List Nat) (share : List Nat) :
    Except String EncryptedShare :=
  match getEncryptionKey serverKey with
  | .error e => .error e
  | .ok key =>
    let encrypted := xorStream key nonce 0 share
    .ok ⟨encrypted, nonce, gcmTag key nonce encrypted⟩

/-- ShareService.decryptShare: AES-256-GCM decryption; fails with the
GCM authentication error when the tag does not verify. -/
def decryptShare (serverKey : String) (encrypted nonce : List Nat) (tag : Nat) :
    Except String (List Nat) :=
  match getEncryptionKey serverKey with
  | .error e => .error e
  | .ok key =>
    if gcmTag key nonce encrypted = tag then
      .ok (xorStream key nonce 0 encrypted)
    else
      .error authFailureMsg

/-- Row of the `shamir_shares` table
(migration 2025-02-15-001-shamir-shares, `ShamirShareEntity` in types). -/
structure ShamirShareEntity where
  id : Nat
  userId : Nat
  shareEncrypted : List Nat
  shareNonce : List Nat
  shareTag : Nat
  shareVersion : Nat
  created_at : Int
  updated_at : Int
deriving DecidableEq

/-- The three share-access actions (`'store' | 'retrieve' | 'update'`). -/
inductive AccessAction where
  | store
  | retrieve
  | update
deriving DecidableEq

/-- Row of the `share_access_log` table (`ShareAccessLogEntity`). -/
structure ShareAccessLogEntity where
  userId : Nat
  ipAddress : String
  action : AccessAction
  success : Bool
  failureReason : Option String
  timestamp : Int
deriving DecidableEq

/-- The database state the share-custody engine reads and writes: the
`shamir_shares` and `share_access_log` tables plus the auto-increment
counter backing `table.increments("id")`. -/
structure DBState where
  shares : List ShamirShareEntity
  accessLog : List ShareAccessLogEntity
  nextId : Nat
deriving DecidableEq

/-- ShareService.getShareByUserId: `db("shamir_shares").where({userId}).first()`. -/
def getShareByUserId (st : DBState) (userId : Nat) : Option ShamirShareEntity :=
  st.shares.find? (fun r => r.userId == userId)

/-- Message thrown by `storeShare` when the user already has a share. -/
def duplicateShareMsg : String := "User already has a stored share. Use updateShare instead."

/-- Message thrown by `updateShare` when the user has no share. -/
def noExistingShareMsg : String := "No existing share found for user. Use storeShare instead."

/-- ShareService.storeShare: rejects a duplicate, encrypts, inserts a
version-1 row, re-reads it by its fresh id. `now` is the row-creation
time the database fills into the timestamp columns. -/
def storeShare (serverKey : String) (nonce : List Nat) (now : Int)
    (st : DBState) (userId : Nat) (share : List Nat) :
    Except String (ShamirShareEntity × DBState) :=
  match getShareByUserId st userId with
  | some _ => .error duplicateShareMsg
  | none =>
    match encryptShare serverKey nonce share with
    | .error e => .error e
    | .ok enc =>
      let row : ShamirShareEntity :=
        ⟨st.nextId, userId, enc.encrypted, enc.nonce, enc.tag, 1, now, now⟩
      let st2 : DBState := { st with shares := st.shares ++ [row], nextId := st.nextId + 1 }
      match st2.shares.find? (fun r => r.id == st.nextId) with
      | none => .error "Failed to store share"
      | some result => .ok (result, st2)

/-- ShareService.retrieveDecryptedShare: returns `null` (modelled
`none`) when the user has no share, otherwise decrypts the stored
ciphertext. -/
def retrieveDecryptedShare (serverKey : String) (st : DBState) (userId : Nat) :
    Except String (Option (List Nat)) :=
  match getShareByUserId st userId with
  | none => .ok none
  | some shareEntity =>
    match decryptShare serverKey shareEntity.shareEncrypted
        shareEntity.shareNonce shareEntity.shareTag with
    | .error e => .error e
    | .ok pt => .ok (some pt)

/-- ShareService.updateShare: requires an existing share, re-encrypts,
bumps `shareVersion` by 1, sets `updated_at`, and re-reads the row. -/
def updateShare (serverKey : String) (nonce : List Nat) (now : Int)
    (st : DBState) (userId : Nat) (newShare : List Nat) :
    Except String (ShamirShareEntity × DBState) :=
  match getShareByUserId st userId with
  | none => .error noExistingShareMsg
  | some existing =>
    match encryptShare serverKey nonce newShare with
    | .error e => .error e
    | .ok enc =>
      let shares2 := st.shares.map fun r =>
        if r.userId == userId then
          { r with shareEncrypted := enc.encrypted, shareNonce := enc.nonce,
                   shareTag := enc.tag, shareVersion := existing.shareVersion + 1,
                   updated_at := now }
        else r
      let st2 : DBState := { st with shares := shares2 }
      match getShareByUserId st2 userId with
      | none => .error "Failed to update share"
      | some updated => .ok (updated, st2)

/-- ShareService.deleteShare: `db("shamir_shares").where({userId}).del()`. -/
def deleteShare (st : DBState) (userId : Nat) : DBState :=
  { st with shares := st.shares.filter (fun r => !(r.userId == userId)) }

/-- ShareService.logAccess: append a row to `share_access_log`; an empty
failure reason is coerced to `null` by `failureReason || null`. -/
def logAccess (st : DBState) (userId : Nat) (ipAddress : String)
    (action : AccessAction) (success : Bool) (failureReason : Option String)
    (now : Int) : DBState :=
  { st with accessLog := st.accessLog ++
      [⟨userId, ipAddress, action, success,
        if failureReason = some "" then none else failureReason, now⟩] }

/-- Rate limit configuration (`RateLimitConfig` in types). -/
structure RateLimitConfig where
  maxAttempts : Nat
  windowMinutes : Nat
  lockoutMinutes : Nat
deriving DecidableEq

/-- The `RATE_LIMITS` record from `ShareService`. The source keys a
`Record<string, RateLimitConfig>` by the action name; the action type
is the closed union `'store' | 'retrieve' | 'update'`, so the lookup is
total. -/
def RATE_LIMITS : AccessAction → RateLimitConfig
  | .retrieve => ⟨5, 15, 30⟩
  | .store => ⟨3, 60, 60⟩
  | .update => ⟨3, 30, 60⟩

/-- Result of `ShareService.isRateLimited`. -/
structure RateLimitResult where
  limited : Bool
  retryAfterMinutes : Option Int
deriving DecidableEq

/-- Start of the sliding window for an action:
`new Date(Date.now() - config.windowMinutes * 60 * 1000)`. -/
def windowStartOf (now : Int) (action : AccessAction) : Int :=
  now - (RATE_LIMITS action).windowMinutes * 60 * 1000

/-- The failed log entries counted by the per-user query of
`isRateLimited`: same user and action, `success = false`,
`timestamp >= windowStart`. -/
def userFailures (log : List ShareAccessLogEntity) (userId : Nat)
    (action : AccessAction) (windowStart : Int) : List ShareAccessLogEntity :=
  log.filter fun e =>
    e.userId == userId && e.action == action && e.success == false &&
      windowStart ≤ e.timestamp

/-- The failed log entries counted by the per-IP query of
`isRateLimited`: same origin address and action, `success = false`,
`timestamp >= windowStart`. -/
def ipFailures (log : List ShareAccessLogEntity) (ipAddress : String)
    (action : AccessAction) (windowStart : Int) : List ShareAccessLogEntity :=
  log.filter fun e =>
    e.ipAddress == ipAddress && e.action == action && e.success == false &&
      windowStart ≤ e.timestamp

/-- ShareService.isRateLimited. The per-user branch counts failures in
the window; at or above `maxAttempts` it takes the oldest qualifying
failure (`orderBy timestamp asc`, modelled as the minimum timestamp),
adds the lockout, and if that end lies in the future returns the
remaining minutes, `Math.ceil`-ed. Otherwise the per-IP branch applies
the doubled threshold with a flat `lockoutMinutes` retry hint. -/
def isRateLimited (st : DBState) (now : Int) (userId : Nat)
    (ipAddress : String) (action : AccessAction) : RateLimitResult :=
  let config := RATE_LIMITS action
  let windowStart := windowStartOf now action
  let failed := userFailures st.accessLog userId action windowStart
  let userHit : Option RateLimitResult :=
    if config.maxAttempts ≤ failed.length then
      match (failed.map (fun e => e.timestamp)).min? with
      | some oldest =>
        let lockoutEnd := oldest + config.lockoutMinutes * 60 * 1000
        if now < lockoutEnd then
          some ⟨true, some ((lockoutEnd - now + 59999) / 60000)⟩
        else none
      | none => none
    else none
  match userHit with
  | some r => r
  | none =>
    let ipFailed := ipFailures st.accessLog ipAddress action windowStart
    if config.maxAttempts * 2 ≤ ipFailed.length then
      ⟨true, some ((RATE_LIMITS action).lockoutMinutes : Int)⟩
    else ⟨false, none⟩

/-- Modelled from the spec: `Xor(a, b)` — fixed-length bytewise XOR of
two factors; fails with `LengthMismatch` when operand lengths differ.
The implementing code (`CWIStyleWalletManager` in wallet-toolbox) is
not part of this repository. -/
def xorKeys (a b : List Nat) : Option (List Nat) :=
  if a.length = b.length then some (a.zipWith (fun x y => x ^^^ y) b) else none

/-- An authenticated-encryption blob (ciphertext, nonce, tag). -/
structure Ciphertext where
  body : List Nat
  nonce : List Nat
  tag : Nat
deriving DecidableEq

/-- Modelled from the spec: `SymmetricEncrypt(plaintext, key)` with the
nonce passed explicitly as the randomness, using the same ideal AEAD as
the custody engine. -/
def symEncrypt (key nonce pt : List Nat) : Ciphertext :=
  ⟨xorStream key nonce 0 pt, nonce, gcmTag key nonce (xorStream key nonce 0 pt)⟩

/-- Modelled from the spec: `SymmetricDecrypt(ciphertext, key)`; fails
with `AuthenticationFailure` when the tag does not verify. -/
def symDecrypt (key : List Nat) (c : Ciphertext) : Except String (List Nat) :=
  if gcmTag key c.nonce c.body = c.tag then
    .ok (xorStream key c.nonce 0 c.body)
  else
    .error "AuthenticationFailure"

/-- Modelled from the spec: a one-way lookup digest (SHA-256-class). -/
def modelHash (input : List Nat) : List Nat :=
  [input.foldl (fun a b => (a * 131 + b + 1) % 4294967296) 5]

/-- Modelled from the spec and `how-it-works.md`: the UMP token fields
the recovery claims touch — the three primary-key ciphertexts, the two
privileged-key ciphertexts and the two lookup hashes. The encrypted
factor backups, PBKDF salt, optional profile blob and outpoint locator
are carried by the real token but unused by recovery of the primary
key, and are omitted. -/
structure UMPToken where
  passwordPresentationPrimary : Ciphertext
  passwordRecoveryPrimary : Ciphertext
  presentationRecoveryPrimary : Ciphertext
  passwordPrimaryPrivileged : Ciphertext
  presentationRecoveryPrivileged : Ciphertext
  presentationHash : List Nat
  recoveryHash : List Nat
deriving DecidableEq

/-- Modelled from the spec: `BuildToken` computes the five ciphertexts
(`passwordPresentationPrimary = SymmetricEncrypt(P, XOR(presentation,
password))` and so on, per `how-it-works.md`) and the two lookup
hashes; the five nonces are the per-ciphertext randomness. -/
def buildToken (p w r P V : List Nat) (n1 n2 n3 n4 n5 : List Nat) :
    Option UMPToken := do
  let kpw ← xorKeys p w
  let kwr ← xorKeys w r
  let kpr ← xorKeys p r
  let kwP ← xorKeys w P
  some
    { passwordPresentationPrimary := symEncrypt kpw n1 P
      passwordRecoveryPrimary := symEncrypt kwr n2 P
      presentationRecoveryPrimary := symEncrypt kpr n3 P
      passwordPrimaryPrivileged := symEncrypt kwP n4 V
      presentationRecoveryPrivileged := symEncrypt kpr n5 V
      presentationHash := modelHash p
      recoveryHash := modelHash r }

/-- The three recovery modes of `Recover`. -/
inductive RecoveryMode where
  | presentationPassword
  | presentationRecovery
  | recoveryPassword
deriving DecidableEq

/-- Modelled from the spec: `Recover(mode, factorA, factorB, token)`
selects the primary ciphertext matching the mode, derives the XOR
combination key from the two supplied factors, and decrypts the root
primary key. -/
def recover (mode : RecoveryMode) (factorA factorB : List Nat)
    (token : UMPToken) : Except String (List Nat) :=
  match xorKeys factorA factorB with
  | none => .error "LengthMismatch"
  | some xk =>
    match mode with
    | .presentationPassword => symDecrypt xk token.passwordPresentationPrimary
    | .presentationRecovery => symDecrypt xk token.presentationRecoveryPrimary
    | .recoveryPassword => symDecrypt xk token.passwordRecoveryPrimary

/-- The `unique(["userId"])` constraint of the `shamir_shares` table:
no two rows share a `userId`. -/
def UniqueShares (st : DBState) : Prop :=
  st.shares.Pairwise (fun a b => a.userId ≠ b.userId)

/-- A concrete well-formed 64-hex-character server key (32 zero bytes). -/
def keyW : String := "0000000000000000000000000000000000000000000000000000000000000000"

/-- The empty database state with auto-increment counter at 1. -/
def stEmpty : DBState := ⟨[], [], 1⟩

/-- A concrete share row owned by user 7. -/
def rowOne : ShamirShareEntity := ⟨1, 7, [5], [6], 0, 1, 0, 0⟩

/-- A state holding exactly one share, owned by user 7. -/
def stOne : DBState := ⟨[rowOne], [], 2⟩

/-- A one-share state whose stored tag fails GCM verification under
`keyW` (the tag is off by one from the genuine tag). -/
def stBadTag : DBState :=
  ⟨[⟨1, 7, [5], [6], gcmTag (List.replicate 32 0) [6] [5] + 1, 1, 0, 0⟩], [], 2⟩

/-- Three failed store attempts by user 1 from one origin, all logged
exactly at the window boundary for a call at time 3600000 (their
timestamp 0 equals the window start). -/
def stBoundary : DBState :=
  logAccess (logAccess (logAccess stEmpty 1 "203.0.113.5" .store false (some "otp") 0)
    1 "203.0.113.5" .store false (some "otp") 0) 1 "203.0.113.5" .store false (some "otp") 0

/-- Three failed store attempts by user 1, logged strictly inside the
window for a call at time 3600000. -/
def stStrict : DBState :=
  logAccess (logAccess (logAccess stEmpty 1 "203.0.113.5" .store false (some "otp") 100)
    1 "203.0.113.5" .store false (some "otp") 100) 1 "203.0.113.5" .store false (some "otp") 100

/-- A log holding only successful attempts. -/
def stAllSuccess : DBState :=
  logAccess (logAccess stEmpty 1 "203.0.113.5" .store true none 100)
    2 "203.0.113.5" .store true none 200

/-- Six failed store attempts from a single origin address against
different users, inside the window for a call at time 3600000. -/
def stIpFlood : DBState :=
  ⟨[], (List.range 6).map fun i => ⟨i, "198.51.100.7", .store, false, none, 100⟩, 1⟩

/-- A concrete UMP token built from factors p=[1], w=[2], r=[3] and
roots P=[7], V=[9] with nonces [4],[5],[6],[8],[10]; the XOR combination
keys are [3],[1],[2],[5]. -/
def tokenW : UMPToken :=
  { passwordPresentationPrimary := symEncrypt [3] [4] [7]
    passwordRecoveryPrimary := symEncrypt [1] [5] [7]
    presentationRecoveryPrimary := symEncrypt [2] [6] [7]
    passwordPrimaryPrivileged := symEncrypt [5] [8] [9]
    presentationRecoveryPrivileged := symEncrypt [2] [10] [9]
    presentationHash := modelHash [1]
    recoveryHash := modelHash [3] }

/-- The encryption of the share [2] under `keyW` with nonce [3]. -/
def encW : EncryptedShare :=
  ⟨xorStream (List.replicate 32 0) [3] 0 [2], [3],
   gcmTag (List.replicate 32 0) [3] (xorStream (List.replicate 32 0) [3] 0 [2])⟩

/-- The row of `stOne` after `updateShare keyW [3] 5 stOne 7 [2]`. -/
def rowUpd : ShamirShareEntity :=
  ⟨1, 7, encW.encrypted, encW.nonce, encW.tag, 2, 0, 5⟩

/-- The state after `updateShare keyW [3] 5 stOne 7 [2]`. -/
def stUpd : DBState := ⟨[rowUpd], [], 2⟩

theorem xorStream_xorStream (key nonce : List Nat) :
    ∀ (i : Nat) (l : List Nat), xorStream key nonce i (xorStream key nonce i l) = l
  | _, [] => by simp [xorStream]
  | i, b :: rest => by
    simp [xorStream, Nat.xor_assoc, Nat.xor_self, Nat.xor_zero,
      xorStream_xorStream key nonce (i + 1) rest]

theorem decryptShare_xorStream (serverKey : String) (key nonce share : List Nat)
    (hk : getEncryptionKey serverKey = .ok key) :
    decryptShare serverKey (xorStream key nonce 0 share) nonce
      (gcmTag key nonce (xorStream key nonce 0 share)) = .ok share := by
  simp [decryptShare, hk, xorStream_xorStream]

theorem decryptShare_encryptShare (serverKey : String) (key nonce share : List Nat)
    (hk : getEncryptionKey serverKey = .ok key) :
    ∃ es, encryptShare serverKey nonce share = .ok es ∧
      decryptShare serverKey es.encrypted es.nonce es.tag = .ok share :=
  ⟨⟨xorStream key nonce 0 share, nonce, gcmTag key nonce (xorStream key nonce 0 share)⟩,
    by simp [encryptShare, hk], decryptShare_xorStream serverKey key nonce share hk⟩

/-- C1: encrypting a share with the configured 32-byte server key and
decrypting the resulting (ciphertext, nonce, tag) triple yields the
share again, and for a user with no prior share, `storeShare` followed
by `retrieveDecryptedShare` returns exactly the stored share. -/
theorem storeShare_retrieveDecryptedShare_roundtrip
    (serverKey : String) (key nonce share : List Nat) (st : DBState) (u : Nat) (now : Int)
    (hk : getEncryptionKey serverKey = .ok key)
    (hnone : getShareByUserId st u = none) :
    (∃ es, encryptShare serverKey nonce share = .ok es ∧
       decryptShare serverKey es.encrypted es.nonce es.tag = .ok share) ∧
    (∃ row st2, storeShare serverKey nonce now st u share = .ok (row, st2) ∧
       retrieveDecryptedShare serverKey st2 u = .ok (some share)) := by
  refine ⟨decryptShare_encryptShare serverKey key nonce share hk, ?_⟩
  have henc : encryptShare serverKey nonce share =
      .ok ⟨xorStream key nonce 0 share, nonce, gcmTag key nonce (xorStream key nonce 0 share)⟩ := by
    simp [encryptShare, hk]
  simp only [storeShare, hnone, henc]
  set row : ShamirShareEntity :=
    ⟨st.nextId, u, xorStream key nonce 0 share, nonce,
      gcmTag key nonce (xorStream key nonce 0 share), 1, now, now⟩ with hrow
  have hfind : ((st.shares ++ [row]).find? fun r => r.id == st.nextId).isSome = true := by
    rw [List.find?_append]
    cases h1 : st.shares.find? fun r => r.id == st.nextId with
    | some r => simp [Option.or]
    | none => simp [Option.or, List.find?, hrow]
  obtain ⟨res, hres⟩ := Option.isSome_iff_exists.mp hfind
  refine ⟨res, (⟨st.shares ++ [row], st.accessLog, st.nextId + 1⟩ : DBState),
    by rw [hres], ?_⟩
  have hfu : ((st.shares ++ [row]).find? fun r => r.userId == u) = some row := by
    rw [List.find?_append, getShareByUserId] at *
    simp [hnone, Option.or, List.find?, hrow]
  simp only [retrieveDecryptedShare, getShareByUserId, hfu, hrow]
  rw [decryptShare_xorStream serverKey key nonce share hk]

/-- The userId of the row written by `updateShare`'s update map equals
the original row's userId. -/
theorem updateRow_userId (enc : EncryptedShare) (v : Nat) (now : Int) (u : Nat)
    (r : ShamirShareEntity) :
    ((if r.userId == u then
        { r with shareEncrypted := enc.encrypted, shareNonce := enc.nonce,
                 shareTag := enc.tag, shareVersion := v, updated_at := now }
      else r) : ShamirShareEntity).userId = r.userId := by
  split <;> rfl

/-- C2: `storeShare` on a user with an existing share always fails with
the duplicate-share error; `updateShare` on a user with no share always
fails with the no-existing-share error; and the at-most-one-share-per-
user invariant is preserved by store, update and delete. -/
theorem singleShareInvariant (serverKey : String) (nonce : List Nat) (now : Int)
    (st : DBState) (u : Nat) (share : List Nat) :
    ((∃ ex, getShareByUserId st u = some ex) →
       storeShare serverKey nonce now st u share = .error duplicateShareMsg) ∧
    (getShareByUserId st u = none →
       updateShare serverKey nonce now st u share = .error noExistingShareMsg) ∧
    (UniqueShares st → ∀ row st2, storeShare serverKey nonce now st u share = .ok (row, st2) →
       UniqueShares st2) ∧
    (UniqueShares st → ∀ row st2, updateShare serverKey nonce now st u share = .ok (row, st2) →
       UniqueShares st2) ∧
    (UniqueShares st → UniqueShares (deleteShare st u)) := by
  refine ⟨?_, ?_, ?_, ?_, ?_⟩
  · rintro ⟨ex, hex⟩
    simp [storeShare, hex]
  · intro hnone
    simp [updateShare, hnone]
  · intro huniq row st2 h
    cases hfind : getShareByUserId st u with
    | some ex => simp [storeShare, hfind] at h
    | none =>
      cases henc : encryptShare serverKey nonce share with
      | error e => simp [storeShare, hfind, henc] at h
      | ok enc =>
        simp only [storeShare, hfind, henc] at h
        split at h
        · exact absurd h (by simp)
        · rw [Except.ok.injEq, Prod.mk.injEq] at h
          rw [← h.2]
          refine List.pairwise_append.mpr ⟨huniq, by simp, ?_⟩
          intro a ha b hb
          rw [List.mem_singleton] at hb
          subst hb
          have := List.find?_eq_none.mp hfind a ha
          simpa using this
  · intro huniq row st2 h
    cases hfind : getShareByUserId st u with
    | none => simp [updateShare, hfind] at h
    | some ex =>
      cases henc : encryptShare serverKey nonce share with
      | error e => simp [updateShare, hfind, henc] at h
      | ok enc =>
        simp only [updateShare, hfind, henc] at h
        split at h
        · exact absurd h (by simp)
        · rw [Except.ok.injEq, Prod.mk.injEq] at h
          rw [← h.2]
          refine List.pairwise_map.mpr ?_
          refine huniq.imp ?_
          intro a b hab
          rw [updateRow_userId, updateRow_userId]
          exact hab
  · intro huniq
    exact List.Pairwise.sublist (List.filter_sublist st.shares) huniq

/-- Closed instance of C2: duplicate store rejected on a one-share
state, update rejected on the empty state, and invariants preserved. -/
theorem singleShareInvariant_witness :
    storeShare keyW [3] 5 stOne 7 [2] = .error duplicateShareMsg ∧
    updateShare keyW [3] 5 stEmpty 7 [2] = .error noExistingShareMsg ∧
    UniqueShares (deleteShare stOne 7) :=
  ⟨(singleShareInvariant keyW [3] 5 stOne 7 [2]).1 ⟨rowOne, rfl⟩,
   (singleShareInvariant keyW [3] 5 stEmpty 7 [2]).2.1 rfl,
   (singleShareInvariant keyW [3] 5 stOne 7 [2]).2.2.2.2 (by simp [UniqueShares, stOne])⟩

/-- find? by userId commutes with a map that preserves userId. -/
theorem find?_userId_map (l : List ShamirShareEntity) (u : Nat)
    (f : ShamirShareEntity → ShamirShareEntity)
    (hf : ∀ r, (f r).userId = r.userId) :
    (l.map f).find? (fun r => r.userId == u) =
      (l.find? (fun r => r.userId == u)).map f := by
  induction l with
  | nil => simp
  | cons a l ih =>
    by_cases h : a.userId == u
    · rw [List.map_cons, List.find?_cons_of_pos (p := fun r : ShamirShareEntity => r.userId == u) _ (by simp [hf, h]),
        List.find?_cons_of_pos (p := fun r : ShamirShareEntity => r.userId == u) _ h]
      rfl
    · rw [List.map_cons, List.find?_cons_of_neg (p := fun r : ShamirShareEntity => r.userId == u) _ (by simp [hf]; simpa using h),
        List.find?_cons_of_neg (p := fun r : ShamirShareEntity => r.userId == u) _ h, ih]

/-- C3: `storeShare` writes version exactly 1 (given the auto-increment
id is fresh, as the database guarantees); a successful `updateShare`
returns a row whose version is exactly one greater than the version
stored before the call; and `deleteShare` only ever removes rows, never
rewrites one. -/
theorem shareVersionMonotonic (serverKey : String) (nonce : List Nat) (now : Int)
    (st : DBState) (u : Nat) (share : List Nat) :
    ((∀ r ∈ st.shares, r.id ≠ st.nextId) →
       ∀ row st2, storeShare serverKey nonce now st u share = .ok (row, st2) →
         row.shareVersion = 1) ∧
    (∀ row st2, updateShare serverKey nonce now st u share = .ok (row, st2) →
       ∃ ex, getShareByUserId st u = some ex ∧ row.shareVersion = ex.shareVersion + 1) ∧
    (∀ r ∈ (deleteShare st u).shares, r ∈ st.shares) := by
  refine ⟨?_, ?_, ?_⟩
  · intro hid row st2 h
    cases hfind : getShareByUserId st u with
    | some ex => simp [storeShare, hfind] at h
    | none =>
      cases henc : encryptShare serverKey nonce share with
      | error e => simp [storeShare, hfind, henc] at h
      | ok enc =>
        simp only [storeShare, hfind, henc] at h
        rw [List.find?_append] at h
        have h1 : st.shares.find? (fun r => r.id == st.nextId) = none :=
          List.find?_eq_none.mpr fun x hx => by simpa using hid x hx
        rw [h1] at h
        simp only [Option.none_or, List.find?, beq_self_eq_true, cond_true] at h
        rw [Except.ok.injEq, Prod.mk.injEq] at h
        rw [← h.1]
  · intro row st2 h
    cases hfind : getShareByUserId st u with
    | none => simp [updateShare, hfind] at h
    | some ex =>
      refine ⟨ex, rfl, ?_⟩
      cases henc : encryptShare serverKey nonce share with
      | error e => simp [updateShare, hfind, henc] at h
      | ok enc =>
        simp only [updateShare, hfind, henc] at h
        rw [show (getShareByUserId
            (⟨st.shares.map fun r => if r.userId == u then
                { r with shareEncrypted := enc.encrypted, shareNonce := enc.nonce,
                         shareTag := enc.tag, shareVersion := ex.shareVersion + 1,
                         updated_at := now }
              else r, st.accessLog, st.nextId⟩ : DBState) u) =
            ((st.shares.find? (fun r => r.userId == u)).map fun r =>
              if r.userId == u then
                { r with shareEncrypted := enc.encrypted, shareNonce := enc.nonce,
                         shareTag := enc.tag, shareVersion := ex.shareVersion + 1,
                         updated_at := now }
              else r)
          from find?_userId_map st.shares u _ fun r => updateRow_userId enc (ex.shareVersion + 1) now u r] at h
        rw [show st.shares.find? (fun r => r.userId == u) = some ex from hfind] at h
        have hfind2 : st.shares.find? (fun r => r.userId == u) = some ex := hfind
        have hu : (ex.userId == u) = true :=
          List.find?_some (p := fun r : ShamirShareEntity => r.userId == u) hfind2
        rw [show ((some ex).map (fun r =>
              if r.userId == u then
                { r with shareEncrypted := enc.encrypted, shareNonce := enc.nonce,
                         shareTag := enc.tag, shareVersion := ex.shareVersion + 1,
                         updated_at := now }
              else r)) = some
              { ex with shareEncrypted := enc.encrypted, shareNonce := enc.nonce,
                        shareTag := enc.tag, shareVersion := ex.shareVersion + 1,
                        updated_at := now } from by rw [Option.map_some', if_pos hu]] at h
        simp at h
        rw [← h.1]
  · intro r hr
    exact (List.mem_filter.mp hr).1

/-- Closed instance of C3: version 1 after a store on the empty state,
version 2 after an update on a version-1 state, delete only removes. -/
theorem shareVersionMonotonic_witness :
    (∀ row st2, storeShare keyW [3] 5 stEmpty 7 [2] = .ok (row, st2) →
       row.shareVersion = 1) ∧
    (∃ ex, getShareByUserId stOne 7 = some ex ∧
       ∀ row st2, updateShare keyW [3] 5 stOne 7 [2] = .ok (row, st2) →
         row.shareVersion = ex.shareVersion + 1) := by
  refine ⟨(shareVersionMonotonic keyW [3] 5 stEmpty 7 [2]).1 (by simp [stEmpty]), ?_⟩
  refine ⟨rowOne, rfl, ?_⟩
  intro row st2 h
  obtain ⟨ex, hex, hv⟩ := (shareVersionMonotonic keyW [3] 5 stOne 7 [2]).2.1 row st2 h
  have hex2 : (some rowOne : Option ShamirShareEntity) = some ex := hex
  have hre : rowOne = ex := by injection hex2
  rw [← hre] at hv
  exact hv

/-- C7: `deleteShare` is idempotent, a no-op when the user has no
share, and retrieval after deletion returns the not-found sentinel
(`null`, modelled `none`), not an error. -/
theorem deleteShareIdempotent (serverKey : String) (st : DBState) (u : Nat) :
    deleteShare (deleteShare st u) u = deleteShare st u ∧
    (getShareByUserId st u = none → deleteShare st u = st) ∧
    retrieveDecryptedShare serverKey (deleteShare st u) u = .ok none := by
  refine ⟨?_, ?_, ?_⟩
  · simp [deleteShare, List.filter_filter]
  · intro hnone
    have hall : ∀ r ∈ st.shares, ¬(r.userId == u) = true := List.find?_eq_none.mp hnone
    cases st with
    | mk shares log nid =>
      simp only [deleteShare, DBState.mk.injEq, and_true, true_and]
      exact List.filter_eq_self.mpr fun a ha => by simpa using hall a ha
  · have hnone2 : getShareByUserId (deleteShare st u) u = none := by
      show List.find? (fun r => r.userId == u) (deleteShare st u).shares = none
      apply List.find?_eq_none.mpr
      intro x hx
      simpa using (List.mem_filter.mp hx).2
    simp [retrieveDecryptedShare, hnone2]

/-- Closed instance of C7 on a one-share state and the empty state. -/
theorem deleteShareIdempotent_witness :
    deleteShare (deleteShare stOne 7) 7 = deleteShare stOne 7 ∧
    deleteShare stEmpty 7 = stEmpty ∧
    retrieveDecryptedShare keyW (deleteShare stOne 7) 7 = .ok none :=
  ⟨(deleteShareIdempotent keyW stOne 7).1,
   (deleteShareIdempotent keyW stEmpty 7).2.1 rfl,
   (deleteShareIdempotent keyW stOne 7).2.2⟩

/-- C5: `retrieveDecryptedShare` for a user with no stored record
returns the not-found sentinel `none` (not an error, and without even
consulting the key); an authentication failure while decrypting an
existing record surfaces as an error, which is distinct from the
sentinel by construction. -/
theorem retrieveSentinelVsAuthError (serverKey : String) (st : DBState) (u : Nat) :
    (getShareByUserId st u = none → retrieveDecryptedShare serverKey st u = .ok none) ∧
    (∀ row key, getShareByUserId st u = some row →
       getEncryptionKey serverKey = .ok key →
       gcmTag key row.shareNonce row.shareEncrypted ≠ row.shareTag →
       retrieveDecryptedShare serverKey st u = .error authFailureMsg) := by
  constructor
  · intro hnone
    simp [retrieveDecryptedShare, hnone]
  · intro row key hrow hk htag
    simp [retrieveDecryptedShare, hrow, decryptShare, hk, htag]

/-- Closed instance of C5: sentinel on the empty state, authentication
error on a state with a corrupted tag. -/
theorem retrieveSentinelVsAuthError_witness :
    retrieveDecryptedShare keyW stEmpty 7 = .ok none ∧
    retrieveDecryptedShare keyW stBadTag 7 = .error authFailureMsg :=
  ⟨(retrieveSentinelVsAuthError keyW stEmpty 7).1 rfl,
   (retrieveSentinelVsAuthError keyW stBadTag 7).2
     ⟨1, 7, [5], [6], gcmTag (List.replicate 32 0) [6] [5] + 1, 1, 0, 0⟩
     (List.replicate 32 0) rfl rfl (by decide)⟩

/-- When every character is a hex digit, decoding consumes the whole
string, two characters per byte. -/
theorem hexDecodeAux_length : ∀ l : List Char,
    (∀ c ∈ l, (hexDigitVal c).isSome = true) →
    (hexDecodeAux l).length = l.length / 2
  | [], _ => by simp [hexDecodeAux]
  | [_], _ => by simp [hexDecodeAux]
  | c1 :: c2 :: rest, h => by
    obtain ⟨v1, hv1⟩ := Option.isSome_iff_exists.mp (h c1 (by simp))
    obtain ⟨v2, hv2⟩ := Option.isSome_iff_exists.mp (h c2 (by simp))
    have ih := hexDecodeAux_length rest (fun c hc => h c (by simp [hc]))
    simp only [hexDecodeAux, hv1, hv2, List.length_cons, ih]
    omega

/-- C8: with no configured key, encryption and decryption both fail
with the missing-key error; with a key that does not decode to 32
bytes, both fail with the invalid-key-length error; under a key of 64
hex characters, encryption succeeds and decryption can only fail with
the authentication error — neither key-error branch is reachable. -/
theorem encryptionKeyValidation (serverKey : String)
    (nonce share encrypted nonceCt : List Nat) (tag : Nat) :
    (serverKey = "" →
       encryptShare serverKey nonce share = .error missingKeyMsg ∧
       decryptShare serverKey encrypted nonceCt tag = .error missingKeyMsg) ∧
    (serverKey ≠ "" → (hexDecode serverKey).length ≠ 32 →
       encryptShare serverKey nonce share = .error badKeyLengthMsg ∧
       decryptShare serverKey encrypted nonceCt tag = .error badKeyLengthMsg) ∧
    (serverKey.length = 64 → (∀ c ∈ serverKey.data, (hexDigitVal c).isSome = true) →
       (∃ es, encryptShare serverKey nonce share = .ok es) ∧
       ∀ e, decryptShare serverKey encrypted nonceCt tag = .error e →
         e = authFailureMsg) := by
  refine ⟨?_, ?_, ?_⟩
  · intro hempty
    subst hempty
    constructor <;> rfl
  · intro hne hlen
    have hk : getEncryptionKey serverKey = .error badKeyLengthMsg := by
      simp [getEncryptionKey, hne, hlen]
    constructor
    · simp [encryptShare, hk]
    · simp [decryptShare, hk]
  · intro hlen hhex
    have hdata : serverKey.data.length = 64 := hlen
    have hne : serverKey ≠ "" := by
      intro hcon
      rw [hcon] at hdata
      simp at hdata
    have h32 : (hexDecode serverKey).length = 32 := by
      rw [hexDecode, hexDecodeAux_length serverKey.data hhex, hdata]
    have hk : getEncryptionKey serverKey = .ok (hexDecode serverKey) := by
      simp [getEncryptionKey, hne, h32]
    constructor
    · refine ⟨⟨xorStream (hexDecode serverKey) nonce 0 share, nonce,
        gcmTag (hexDecode serverKey) nonce (xorStream (hexDecode serverKey) nonce 0 share)⟩, ?_⟩
      simp [encryptShare, hk]
    · intro e he
      simp only [decryptShare, hk] at he
      by_cases htag : gcmTag (hexDecode serverKey) nonceCt encrypted = tag
      · rw [if_pos htag] at he
        exact absurd he (by simp)
      · rw [if_neg htag] at he
        exact ((Except.error.injEq _ _).mp he).symm

/-- Closed instance of C8 at the empty key, a 3-character key, and the
well-formed 64-hex-character key. -/
theorem encryptionKeyValidation_witness :
    (encryptShare "" [1] [2] = .error missingKeyMsg ∧
     decryptShare "" [3] [4] 9 = .error missingKeyMsg) ∧
    (encryptShare "abc" [1] [2] = .error badKeyLengthMsg ∧
     decryptShare "abc" [3] [4] 9 = .error badKeyLengthMsg) ∧
    ((∃ es, encryptShare keyW [1] [2] = .ok es) ∧
     ∀ e, decryptShare keyW [3] [4] 9 = .error e → e = authFailureMsg) :=
  ⟨(encryptionKeyValidation "" [1] [2] [3] [4] 9).1 rfl,
   (encryptionKeyValidation "abc" [1] [2] [3] [4] 9).2.1 (by decide) (by decide),
   (encryptionKeyValidation keyW [1] [2] [3] [4] 9).2.2 (by decide) (by decide)⟩

/-- The per-user branch of `isRateLimited`: at or above the threshold
with an unexpired lockout, the request is limited with the remaining
minutes rounded up. -/
theorem isRateLimited_user_trip (st : DBState) (now : Int) (u : Nat) (ip : String)
    (a : AccessAction) (t : Int)
    (h1 : (RATE_LIMITS a).maxAttempts ≤
      (userFailures st.accessLog u a (windowStartOf now a)).length)
    (h2 : ((userFailures st.accessLog u a (windowStartOf now a)).map
      (fun e => e.timestamp)).min? = some t)
    (h3 : now < t + (RATE_LIMITS a).lockoutMinutes * 60 * 1000) :
    isRateLimited st now u ip a =
      ⟨true, some ((t + (RATE_LIMITS a).lockoutMinutes * 60 * 1000 - now + 59999) / 60000)⟩ := by
  simp only [isRateLimited, h2]
  rw [if_pos h1, if_pos h3]

/-- The per-IP branch of `isRateLimited`: at or above double the
per-user threshold the request is limited regardless of the per-user
outcome. -/
theorem isRateLimited_ip_trip (st : DBState) (now : Int) (u : Nat) (ip : String)
    (a : AccessAction)
    (hip : (RATE_LIMITS a).maxAttempts * 2 ≤
      (ipFailures st.accessLog ip a (windowStartOf now a)).length) :
    (isRateLimited st now u ip a).limited = true := by
  simp only [isRateLimited]
  by_cases h1 : (RATE_LIMITS a).maxAttempts ≤
      (userFailures st.accessLog u a (windowStartOf now a)).length
  · rw [if_pos h1]
    cases hmin : ((userFailures st.accessLog u a (windowStartOf now a)).map
        (fun e => e.timestamp)).min? with
    | none => simp [hip]
    | some t =>
      by_cases h3 : now < t + (RATE_LIMITS a).lockoutMinutes * 60 * 1000
      · simp [h3]
      · simp [h3, hip]
  · rw [if_neg h1]
    simp [hip]

/-- With no qualifying failed entries at all, `isRateLimited` reports
not limited. -/
theorem isRateLimited_no_failures (st : DBState) (now : Int) (u : Nat) (ip : String)
    (a : AccessAction)
    (hu : userFailures st.accessLog u a (windowStartOf now a) = [])
    (hip : ipFailures st.accessLog ip a (windowStartOf now a) = []) :
    isRateLimited st now u ip a = ⟨false, none⟩ := by
  have hmax : 0 < (RATE_LIMITS a).maxAttempts := by cases a <;> decide
  simp only [isRateLimited, hu, hip]
  rw [if_neg (by simp only [List.length_nil]; omega),
    if_neg (by simp only [List.length_nil]; omega)]

/-- A log of only-successful entries produces no qualifying failures. -/
theorem failures_of_success (log : List ShareAccessLogEntity)
    (hsucc : ∀ e ∈ log, e.success = true) (u : Nat) (ip : String)
    (a : AccessAction) (ws : Int) :
    userFailures log u a ws = [] ∧ ipFailures log ip a ws = [] := by
  constructor
  · exact List.filter_eq_nil_iff.mpr fun e he => by simp [hsucc e he]
  · exact List.filter_eq_nil_iff.mpr fun e he => by simp [hsucc e he]

/-- The remaining-minutes division is positive while the lockout end is
in the future. -/
theorem retryAfter_pos (lockEnd now : Int) (h : now < lockEnd) :
    0 < (lockEnd - now + 59999) / 60000 := by
  have h1 : (1 : Int) * 60000 ≤ lockEnd - now + 59999 := by omega
  have h2 := (Int.le_ediv_iff_mul_le (by omega : (0 : Int) < 60000)).mpr h1
  omega

/-- C4 counterexample: three failed store attempts (the store
threshold) inside the 60-minute window — all exactly at the window
boundary — yet `isRateLimited` reports not limited, because the
60-minute lockout from the oldest failure has just expired. -/
theorem rateLimitWindowBoundary_cex :
    (RATE_LIMITS .store).maxAttempts ≤
      (userFailures stBoundary.accessLog 1 .store (windowStartOf 3600000 .store)).length ∧
    isRateLimited stBoundary 3600000 1 "203.0.113.5" .store = ⟨false, none⟩ := by
  decide

/-- C4 amended: after `maxAttempts` failed entries for a user and
action within the window, with the oldest qualifying failure strictly
inside the window (equivalently: its lockout not yet expired — automatic
except at the exact window boundary for store, whose lockout equals its
window), `isRateLimited` returns limited with a positive retry-after;
and a log of only successful entries never trips the limit. -/
theorem isRateLimitedFailuresTrip (st : DBState) (now : Int) (u : Nat) (ip : String)
    (a : AccessAction)
    (h1 : (RATE_LIMITS a).maxAttempts ≤
      (userFailures st.accessLog u a (windowStartOf now a)).length)
    (h2 : ∀ e ∈ userFailures st.accessLog u a (windowStartOf now a),
      windowStartOf now a < e.timestamp) :
    ((isRateLimited st now u ip a).limited = true ∧
     ∃ m, (isRateLimited st now u ip a).retryAfterMinutes = some m ∧ 0 < m) ∧
    ∀ st2 : DBState, (∀ e ∈ st2.accessLog, e.success = true) →
      isRateLimited st2 now u ip a = ⟨false, none⟩ := by
  have hmax : 0 < (RATE_LIMITS a).maxAttempts := by cases a <;> decide
  constructor
  · have hne : userFailures st.accessLog u a (windowStartOf now a) ≠ [] := by
      intro hc
      rw [hc] at h1
      simp only [List.length_nil] at h1
      omega
    cases hmin : ((userFailures st.accessLog u a (windowStartOf now a)).map
        (fun e => e.timestamp)).min? with
    | none =>
      exact absurd (List.map_eq_nil_iff.mp (List.min?_eq_none_iff.mp hmin)) hne
    | some t =>
      have htmem : t ∈ (userFailures st.accessLog u a (windowStartOf now a)).map
          (fun e => e.timestamp) :=
        List.min?_mem (fun x y => min_choice x y) hmin
      obtain ⟨e, he, hte⟩ := List.mem_map.mp htmem
      have hwt : windowStartOf now a < t := hte ▸ h2 e he
      have hwl : (RATE_LIMITS a).windowMinutes ≤ (RATE_LIMITS a).lockoutMinutes := by
        cases a <;> decide
      have h3 : now < t + (RATE_LIMITS a).lockoutMinutes * 60 * 1000 := by
        unfold windowStartOf at hwt
        omega
      rw [isRateLimited_user_trip st now u ip a t h1 hmin h3]
      exact ⟨rfl, _, rfl, retryAfter_pos _ now h3⟩
  · intro st2 hsucc
    obtain ⟨hu, hip2⟩ := failures_of_success st2.accessLog hsucc u ip a (windowStartOf now a)
    exact isRateLimited_no_failures st2 now u ip a hu hip2

/-- Closed instance of the C4 theorem: three failed store attempts
strictly inside the window trip the limiter with a positive
retry-after, and an all-success log does not trip it. -/
theorem isRateLimitedFailuresTrip_witness :
    ((isRateLimited stStrict 3600000 1 "203.0.113.5" .store).limited = true ∧
     ∃ m, (isRateLimited stStrict 3600000 1 "203.0.113.5" .store).retryAfterMinutes = some m ∧
       0 < m) ∧
    isRateLimited stAllSuccess 3600000 1 "203.0.113.5" .store = ⟨false, none⟩ :=
  ⟨(isRateLimitedFailuresTrip stStrict 3600000 1 "203.0.113.5" .store
      (by decide) (by decide)).1,
   (isRateLimitedFailuresTrip stStrict 3600000 1 "203.0.113.5" .store
      (by decide) (by decide)).2 stAllSuccess (by decide)⟩

/-- C9: the per-action limits are retrieve 5 failures / 15-minute
window, store 3 / 60, update 3 / 30; the per-origin threshold is
exactly double the per-identity `maxAttempts`; and either check
tripping (the user check with its lockout unexpired, or the IP count
reaching the doubled threshold) flags the request as limited. -/
theorem rateLimitConfigAndIpThreshold (st : DBState) (now : Int) (u : Nat)
    (ip : String) (a : AccessAction)
    (h : ((RATE_LIMITS a).maxAttempts ≤
            (userFailures st.accessLog u a (windowStartOf now a)).length ∧
          ∃ t, ((userFailures st.accessLog u a (windowStartOf now a)).map
              (fun e => e.timestamp)).min? = some t ∧
            now < t + (RATE_LIMITS a).lockoutMinutes * 60 * 1000) ∨
         (RATE_LIMITS a).maxAttempts * 2 ≤
           (ipFailures st.accessLog ip a (windowStartOf now a)).length) :
    RATE_LIMITS .retrieve = ⟨5, 15, 30⟩ ∧ RATE_LIMITS .store = ⟨3, 60, 60⟩ ∧
    RATE_LIMITS .update = ⟨3, 30, 60⟩ ∧
    (isRateLimited st now u ip a).limited = true := by
  refine ⟨rfl, rfl, rfl, ?_⟩
  rcases h with ⟨h1, t, h2, h3⟩ | hip
  · rw [isRateLimited_user_trip st now u ip a t h1 h2 h3]
  · exact isRateLimited_ip_trip st now u ip a hip

/-- Closed instance of C9: six failures from one origin (double the
store threshold of three) flag the request as limited. -/
theorem rateLimitConfigAndIpThreshold_witness :
    RATE_LIMITS .retrieve = ⟨5, 15, 30⟩ ∧ RATE_LIMITS .store = ⟨3, 60, 60⟩ ∧
    RATE_LIMITS .update = ⟨3, 30, 60⟩ ∧
    (isRateLimited stIpFlood 3600000 1 "198.51.100.7" .store).limited = true :=
  rateLimitConfigAndIpThreshold stIpFlood 3600000 1 "198.51.100.7" .store
    (Or.inr (by decide))

/-- Decryption with the same key inverts `symEncrypt`. -/
theorem symDecrypt_symEncrypt (key nonce pt : List Nat) :
    symDecrypt key (symEncrypt key nonce pt) = .ok pt := by
  simp [symDecrypt, symEncrypt, xorStream_xorStream]

/-- The XOR combination key is order-independent in its two factors. -/
theorem xorKeys_comm (a b : List Nat) : xorKeys a b = xorKeys b a := by
  unfold xorKeys
  by_cases h : a.length = b.length
  · rw [if_pos h, if_pos h.symm, List.zipWith_comm_of_comm _ Nat.xor_comm]
  · rw [if_neg h, if_neg (fun hc => h hc.symm)]

/-- C6: for a token built from factors (p, w, r) and roots (P, V), all
three factor-pair recovery modes decrypt their matching primary
ciphertext with the XOR combination key and yield the same root
primary key P. -/
theorem recoverCrossConsistency (p w r P V n1 n2 n3 n4 n5 : List Nat)
    (token : UMPToken)
    (hpw : p.length = w.length) (hwr : w.length = r.length)
    (hwP : w.length = P.length)
    (ht : buildToken p w r P V n1 n2 n3 n4 n5 = some token) :
    recover .presentationPassword p w token = .ok P ∧
    recover .presentationRecovery p r token = .ok P ∧
    recover .recoveryPassword r w token = .ok P := by
  have hpr : p.length = r.length := hpw.trans hwr
  have hkpw : xorKeys p w = some (p.zipWith (fun x y => x ^^^ y) w) := by
    simp [xorKeys, hpw]
  have hkwr : xorKeys w r = some (w.zipWith (fun x y => x ^^^ y) r) := by
    simp [xorKeys, hwr]
  have hkpr : xorKeys p r = some (p.zipWith (fun x y => x ^^^ y) r) := by
    simp [xorKeys, hpr]
  have hkwP : xorKeys w P = some (w.zipWith (fun x y => x ^^^ y) P) := by
    simp [xorKeys, hwP]
  have hkrw : xorKeys r w = some (w.zipWith (fun x y => x ^^^ y) r) := by
    rw [xorKeys_comm, hkwr]
  simp only [buildToken, hkpw, hkwr, hkpr, hkwP, Option.bind_eq_bind,
    Option.some_bind, Option.some.injEq] at ht
  rw [← ht]
  refine ⟨?_, ?_, ?_⟩
  · simp [recover, hkpw, symDecrypt_symEncrypt]
  · simp [recover, hkpr, symDecrypt_symEncrypt]
  · simp [recover, hkrw, symDecrypt_symEncrypt]

/-- Closed instance of C6 on one-byte factors and roots. -/
theorem recoverCrossConsistency_witness :
    recover .presentationPassword [1] [2] tokenW = .ok [7] ∧
    recover .presentationRecovery [1] [3] tokenW = .ok [7] ∧
    recover .recoveryPassword [3] [2] tokenW = .ok [7] :=
  recoverCrossConsistency [1] [2] [3] [7] [9] [4] [5] [6] [8] [10] tokenW
    rfl rfl rfl rfl

/-- C10: a successful `updateShare` changes only the ciphertext, nonce,
tag, version and updated-at of the user's row — each row keeps its id,
owner and creation timestamp, rows of other users are untouched, the
row count is unchanged, and the access log and the id counter are
unchanged. -/
theorem updateShareFrame (serverKey : String) (nonce : List Nat) (now : Int)
    (st : DBState) (u : Nat) (newShare : List Nat) (row : ShamirShareEntity)
    (st2 : DBState)
    (h : updateShare serverKey nonce now st u newShare = .ok (row, st2)) :
    st2.shares.length = st.shares.length ∧ st2.accessLog = st.accessLog ∧
    st2.nextId = st.nextId ∧
    List.Forall₂ (fun r0 r2 => r2.id = r0.id ∧ r2.userId = r0.userId ∧
      r2.created_at = r0.created_at ∧ (r0.userId ≠ u → r2 = r0))
      st.shares st2.shares := by
  cases hfind : getShareByUserId st u with
  | none => simp [updateShare, hfind] at h
  | some ex =>
    cases henc : encryptShare serverKey nonce newShare with
    | error e => simp [updateShare, hfind, henc] at h
    | ok enc =>
      simp only [updateShare, hfind, henc] at h
      split at h
      · exact absurd h (by simp)
      · rw [Except.ok.injEq, Prod.mk.injEq] at h
        rw [← h.2]
        refine ⟨by simp, rfl, rfl, ?_⟩
        refine List.forall₂_map_right_iff.mpr (List.forall₂_same.mpr ?_)
        intro x hx
        by_cases hxu : (x.userId == u) = true
        · have hx2 : x.userId = u := by simpa using hxu
          simp [hxu, hx2]
        · simp [hxu]

/-- Closed instance of C10: updating the single share of user 7. -/
theorem updateShareFrame_witness :
    stUpd.shares.length = stOne.shares.length ∧
    stUpd.accessLog = stOne.accessLog ∧ stUpd.nextId = stOne.nextId ∧
    List.Forall₂ (fun r0 r2 => r2.id = r0.id ∧ r2.userId = r0.userId ∧
      r2.created_at = r0.created_at ∧ (r0.userId ≠ 7 → r2 = r0))
      stOne.shares stUpd.shares :=
  updateShareFrame keyW [3] 5 stOne 7 [2] rowUpd stUpd rfl

/-- Closed instance of C1 at a concrete key, nonce, share and user. -/
theorem storeShare_retrieveDecryptedShare_roundtrip_witness :
    (∃ es, encryptShare keyW [1, 2] [10, 20, 30] = .ok es ∧
       decryptShare keyW es.encrypted es.nonce es.tag = .ok [10, 20, 30]) ∧
    (∃ row st2, storeShare keyW [1, 2] 0 stEmpty 42 [10, 20, 30] = .ok (row, st2) ∧
       retrieveDecryptedShare keyW st2 42 = .ok (some [10, 20, 30])) :=
  storeShare_retrieveDecryptedShare_roundtrip keyW (List.replicate 32 0) [1, 2]
    [10, 20, 30] stEmpty 42 0 rfl rfl
